import Mathlib

/-
Shallow embedding of the Zappy real-time quiz server core
(socket game coordinator: room registry, question lifecycle,
answer scoring, leaderboard, disconnect sweep).

Rooms live in a process-wide map from room code to room state.
JavaScript Map objects are modelled as insertion-ordered association
lists: an update on an existing key replaces the value in place,
an update on a fresh key appends at the end.  Scores are JS numbers
used only through +, /, *, comparisons on exact values, modelled as ℚ.
A JS exception thrown inside a handler (property access on undefined)
is modelled by the handler result's faulted flag; mutations performed
before the throw are kept, mirroring in-place mutation of the room.
-/

namespace Zappy

/-- A participant in a room: display name, accumulated score, and the
per-question answered flag. -/
structure Player where
  name : String
  score : ℚ
  answered : Bool
  deriving DecidableEq

/-- One quiz question: text, choice strings, the correct choice indices,
and an optional per-question time limit in seconds. -/
structure Question where
  text : String
  choices : List String
  correctIndices : List Int
  timeLimitSec : Option Nat
  deriving DecidableEq

/-- A quiz is an ordered list of questions. -/
structure Quiz where
  questions : List Question
  deriving DecidableEq

/-- Mutable room state: host connection id, host account id, the quiz,
the joined players (keyed by connection id), the current question index
(-1 before the first question), and the current question deadline. -/
structure Room where
  hostId : String
  hostUserId : String
  quiz : Quiz
  players : List (String × Player)
  currentQ : Int
  endsAt : Option Int
  deriving DecidableEq

/-- The room registry: room code to room, JS Map semantics. -/
abbrev Rooms := List (String × Room)

/-- JS Map.get: value at the first (hence unique) occurrence of the key. -/
def mapGet {α : Type} : List (String × α) → String → Option α
  | [], _ => none
  | kv :: rest, k => if kv.1 == k then some kv.2 else mapGet rest k

/-- Replace the value stored under occurrences of the key, in place. -/
def mapReplace {α : Type} (m : List (String × α)) (k : String) (v : α) :
    List (String × α) :=
  m.map (fun kv => if kv.1 == k then (k, v) else kv)

/-- JS Map.set: replace in place when the key is present, else append. -/
def mapSet {α : Type} (m : List (String × α)) (k : String) (v : α) :
    List (String × α) :=
  if m.any (fun kv => kv.1 == k) then mapReplace m k v else m ++ [(k, v)]

/-- JS Map.delete: drop the entry with the given key. -/
def mapDelete {α : Type} (m : List (String × α)) (k : String) :
    List (String × α) :=
  m.filter (fun kv => kv.1 != k)

theorem mapGet_cons {α : Type} (kv : String × α) (rest : List (String × α))
    (k : String) :
    mapGet (kv :: rest) k = if kv.1 == k then some kv.2 else mapGet rest k :=
  rfl

theorem mapGet_cons_pos {α : Type} {kv : String × α}
    {rest : List (String × α)} {k : String} (h : (kv.1 == k) = true) :
    mapGet (kv :: rest) k = some kv.2 := by
  rw [mapGet_cons, if_pos h]

theorem mapGet_cons_neg {α : Type} {kv : String × α}
    {rest : List (String × α)} {k : String} (h : ¬ (kv.1 == k) = true) :
    mapGet (kv :: rest) k = mapGet rest k := by
  rw [mapGet_cons, if_neg h]

theorem mapReplace_cons {α : Type} (kv : String × α)
    (rest : List (String × α)) (k : String) (v : α) :
    mapReplace (kv :: rest) k v =
      (if kv.1 == k then (k, v) else kv) :: mapReplace rest k v :=
  rfl

theorem mapDelete_cons {α : Type} (kv : String × α)
    (rest : List (String × α)) (k : String) :
    mapDelete (kv :: rest) k =
      if kv.1 != k then kv :: mapDelete rest k else mapDelete rest k :=
  List.filter_cons

theorem mapGet_mapReplace_self {α : Type} (m : List (String × α)) (k : String)
    (v : α) (h : m.any (fun kv => kv.1 == k) = true) :
    mapGet (mapReplace m k v) k = some v := by
  induction m with
  | nil => simp at h
  | cons kv rest ih =>
    rw [mapReplace_cons]
    by_cases hk : kv.1 == k
    · rw [if_pos hk, mapGet_cons_pos (by simp)]
    · simp only [List.any_cons, hk, Bool.false_or] at h
      rw [if_neg hk, mapGet_cons_neg hk]
      exact ih h

theorem mapGet_mapSet_self {α : Type} (m : List (String × α)) (k : String)
    (v : α) : mapGet (mapSet m k v) k = some v := by
  unfold mapSet
  by_cases h : m.any (fun kv => kv.1 == k)
  · rw [if_pos h]
    exact mapGet_mapReplace_self m k v h
  · rw [if_neg h]
    induction m with
    | nil => rw [List.nil_append, mapGet_cons_pos (by simp)]
    | cons kv rest ih =>
      simp only [List.any_cons, Bool.or_eq_true, not_or] at h
      rw [List.cons_append, mapGet_cons_neg h.1]
      exact ih h.2

theorem mapGet_mapReplace_ne {α : Type} (m : List (String × α))
    (k code : String) (v : α) (hne : code ≠ k) :
    mapGet (mapReplace m k v) code = mapGet m code := by
  induction m with
  | nil => rfl
  | cons kv rest ih =>
    rw [mapReplace_cons]
    by_cases hk : kv.1 == k
    · have h1 : kv.1 = k := by simpa using hk
      have h2 : ¬ ((k : String) == code) = true := by
        simp only [beq_iff_eq]
        exact Ne.symm hne
      rw [if_pos hk, mapGet_cons_neg h2, mapGet_cons_neg (by
        rw [h1]; exact h2)]
      exact ih
    · rw [if_neg hk]
      by_cases hc : kv.1 == code
      · rw [mapGet_cons_pos hc, mapGet_cons_pos hc]
      · rw [mapGet_cons_neg hc, mapGet_cons_neg hc]
        exact ih

theorem mapGet_mapSet_ne {α : Type} (m : List (String × α)) (k code : String)
    (v : α) (hne : code ≠ k) : mapGet (mapSet m k v) code = mapGet m code := by
  unfold mapSet
  by_cases h : m.any (fun kv => kv.1 == k)
  · rw [if_pos h]
    exact mapGet_mapReplace_ne m k code v hne
  · rw [if_neg h]
    induction m with
    | nil =>
      rw [List.nil_append,
        mapGet_cons_neg (by simpa using Ne.symm hne)]
    | cons kv rest ih =>
      by_cases hc : kv.1 == code
      · rw [List.cons_append, mapGet_cons_pos hc, mapGet_cons_pos hc]
      · rw [List.cons_append, mapGet_cons_neg hc, mapGet_cons_neg hc]
        exact ih (by simp only [List.any_cons, Bool.or_eq_true,
          not_or] at h; exact h.2)

theorem mapGet_mapDelete_self {α : Type} (m : List (String × α))
    (k : String) : mapGet (mapDelete m k) k = none := by
  induction m with
  | nil => rfl
  | cons kv rest ih =>
    rw [mapDelete_cons]
    by_cases hk : kv.1 == k
    · rw [if_neg (by simpa using hk)]
      exact ih
    · rw [if_pos (by simpa using hk), mapGet_cons_neg hk]
      exact ih

theorem mapGet_mapDelete_ne {α : Type} (m : List (String × α))
    (k code : String) (hne : code ≠ k) :
    mapGet (mapDelete m k) code = mapGet m code := by
  induction m with
  | nil => rfl
  | cons kv rest ih =>
    rw [mapDelete_cons]
    by_cases hk : kv.1 == k
    · have h1 : kv.1 = k := by simpa using hk
      have h2 : ¬ (kv.1 == code) = true := by
        simp only [h1, beq_iff_eq]
        exact Ne.symm hne
      rw [if_neg (by simpa using hk), mapGet_cons_neg h2]
      exact ih
    · by_cases hc : kv.1 == code
      · rw [if_pos (by simpa using hk), mapGet_cons_pos hc,
          mapGet_cons_pos hc]
      · rw [if_pos (by simpa using hk), mapGet_cons_neg hc,
          mapGet_cons_neg hc]
        exact ih

/-- JS array indexing: arr[i] is undefined for i < 0 or i past the end. -/
def jsIndex {α : Type} (xs : List α) (i : Int) : Option α :=
  if i < 0 then none else xs[i.toNat]?

/-- JS  x || d  on an optional number: the default replaces both a
missing value and 0, which is falsy. -/
def jsOrDefault (x : Option Nat) (d : Nat) : Nat :=
  match x with
  | none => d
  | some n => if n = 0 then d else n

/-- Ascending numeric sort, as produced by JS sort with comparator
a - b on a list of integers (insertion sort yields the same list). -/
def insertAsc (i : Int) : List Int → List Int
  | [] => [i]
  | j :: rest => if i ≤ j then i :: j :: rest else j :: insertAsc i rest

/-- Sort a list of integers ascending. -/
def sortInts : List Int → List Int
  | [] => []
  | i :: rest => insertAsc i (sortInts rest)

/-- An answer payload is a single choice index or an array of them;
the handler turns it into the playerAnswers list. -/
inductive JsChoice where
  | single (i : Int)
  | multi (xs : List Int)
  deriving DecidableEq

/-- The playerAnswers list the answer handler computes from the payload:
an array is numerically sorted, a single value is wrapped. -/
def toAnswers : JsChoice → List Int
  | .single i => [i]
  | .multi xs => sortInts xs

/-- Decoded JWT payload: user id and role claim. -/
structure TokenPayload where
  id : String
  role : String
  deriving DecidableEq

/-- Outbound socket emissions.  The first field is the destination:
a socket id for unicasts or a room code for broadcasts to the group. -/
inductive Emit where
  | errorMsg (dest : String) (message : String)
  | roomCreated (dest : String) (roomCode : String)
  | playersUpdate (dest : String) (players : List Player)
  | lobbyUpdate (dest : String) (count : Nat)
  | gameOver (dest : String) (leaderboard : List (String × ℚ))
  | questionStart (dest : String) (index : Int) (text : String)
      (choices : List String) (endsAt : Int) (hasMultipleAnswers : Bool)
  | questionEnd (dest : String) (correctIndices : List Int)
      (leaderboard : List (String × ℚ))
  | answerResult (dest : String) (correct : Bool)
  | hostLeaderboard (dest : String) (leaderboard : List (String × ℚ))
  | gameClosed (dest : String)
  deriving DecidableEq

/-- Result of one handler invocation: the registry afterwards, the
emissions in order, and whether the handler threw a JS TypeError. -/
structure HResult where
  rooms : Rooms
  emits : List Emit
  faulted : Bool
  deriving DecidableEq

/-- makeLeaderboard from the source: map players to (name, score) pairs
and sort by score descending with the stable JS Array sort. -/
def makeLeaderboard (room : Room) : List (String × ℚ) :=
  ((room.players.map Prod.snd).map (fun p => (p.name, p.score))).mergeSort
    (fun a b => decide (b.2 ≤ a.2))

/-- host:create_room handler.  The decoded argument models jwt.verify:
none when verification throws.  The roomCode argument is the randomly
drawn code; the handler stores the room under it unconditionally. -/
def hostCreateRoom (rooms : Rooms) (sid : String) (quiz : Quiz)
    (decoded : Option TokenPayload) (roomCode : String) : HResult :=
  match decoded with
  | none => ⟨rooms, [Emit.errorMsg sid "Invalid or expired token."], false⟩
  | some d =>
    if d.role ≠ "host" then
      ⟨rooms,
       [Emit.errorMsg sid "Unauthorized: Only hosts can create rooms."],
       false⟩
    else
      ⟨mapSet rooms roomCode
        { hostId := sid, hostUserId := d.id, quiz := quiz, players := [],
          currentQ := -1, endsAt := none },
       [Emit.roomCreated sid roomCode], false⟩

/-- player:join handler: overwrites any existing player record for the
connection with a fresh one and broadcasts the updated player list. -/
def playerJoin (rooms : Rooms) (sid : String) (roomCode : String)
    (name : String) : HResult :=
  match mapGet rooms roomCode with
  | none => ⟨rooms, [Emit.errorMsg sid "Room not found"], false⟩
  | some room =>
    let players :=
      mapSet room.players sid { name := name, score := 0, answered := false }
    let room' := { room with players := players }
    ⟨mapSet rooms roomCode room',
     [Emit.playersUpdate roomCode (players.map Prod.snd),
      Emit.lobbyUpdate roomCode players.length], false⟩

/-- host:next_question handler.  Increments currentQ first; past the end
it broadcasts game:over, otherwise it resets the answered flags, sets
the deadline and broadcasts question:start.  The unreachable index
branch mirrors the TypeError on q.timeLimitSec after the flags reset. -/
def hostNextQuestion (rooms : Rooms) (sid : String) (roomCode : String)
    (now : Int) : HResult :=
  match mapGet rooms roomCode with
  | none => ⟨rooms, [], false⟩
  | some room =>
    if sid ≠ room.hostId then ⟨rooms, [], false⟩
    else
      let cq := room.currentQ + 1
      if (room.quiz.questions.length : Int) ≤ cq then
        let room' := { room with currentQ := cq }
        ⟨mapSet rooms roomCode room',
         [Emit.gameOver roomCode (makeLeaderboard room')], false⟩
      else
        let resetPlayers :=
          room.players.map (fun kv => (kv.1, { kv.2 with answered := false }))
        match jsIndex room.quiz.questions cq with
        | none =>
          ⟨mapSet rooms roomCode
            { room with currentQ := cq, players := resetPlayers }, [], true⟩
        | some q =>
          let endsAt := now + ((jsOrDefault q.timeLimitSec 20 : Nat) : Int) * 1000
          let room' :=
            { room with
              currentQ := cq
              players := resetPlayers
              endsAt := some endsAt }
          ⟨mapSet rooms roomCode room',
           [Emit.questionStart roomCode cq q.text q.choices endsAt
             (decide (1 < q.correctIndices.length))], false⟩

/-- player:answer handler.  No deadline check and no deduplication of
the submitted indices; reads the current question unguarded, so an
out-of-range currentQ throws after the answered flag was already set. -/
def playerAnswer (rooms : Rooms) (sid : String) (roomCode : String)
    (choiceIndices : JsChoice) (now : Int) : HResult :=
  match mapGet rooms roomCode with
  | none => ⟨rooms, [], false⟩
  | some room =>
    match mapGet room.players sid with
    | none => ⟨rooms, [], false⟩
    | some player =>
      if player.answered then ⟨rooms, [], false⟩
      else
        let timeLeftMs : Int := max 0 (room.endsAt.getD 0 - now)
        let playerAnswers := toAnswers choiceIndices
        match jsIndex room.quiz.questions room.currentQ with
        | none =>
          ⟨mapSet rooms roomCode
            { room with
              players :=
                mapSet room.players sid { player with answered := true } },
           [], true⟩
        | some q =>
          let scoreEarned : ℚ :=
            if 0 < q.correctIndices.length then
              let correctChoices :=
                playerAnswers.filter (fun idx => q.correctIndices.contains idx)
              let incorrectChoices :=
                playerAnswers.filter
                  (fun idx => !(q.correctIndices.contains idx))
              if correctChoices.length = q.correctIndices.length ∧
                  incorrectChoices.length = 0 then
                1000 + ((timeLeftMs.toNat / 50 : Nat) : ℚ)
              else if 0 < correctChoices.length then
                ((1000 : ℚ) / (q.correctIndices.length : ℚ)) *
                  (correctChoices.length : ℚ)
              else 0
            else 0
          let room' :=
            { room with
              players :=
                mapSet room.players sid
                  { player with
                    answered := true
                    score := player.score + scoreEarned } }
          ⟨mapSet rooms roomCode room',
           [Emit.answerResult sid (decide (0 < scoreEarned)),
            Emit.hostLeaderboard room.hostId (makeLeaderboard room')],
           false⟩

/-- The disconnect sweep over the registry entries, in insertion order:
a room hosted by the leaving socket is deleted and game:closed is
broadcast; otherwise, if the socket is one of the room's players, the
player is removed and the updated player list broadcast. -/
def disconnectRooms (entries : Rooms) (sid : String) : Rooms × List Emit :=
  match entries with
  | [] => ([], [])
  | (code, room) :: rest =>
    let next := disconnectRooms rest sid
    if room.hostId == sid then
      (next.1, Emit.gameClosed code :: next.2)
    else if (mapGet room.players sid).isSome then
      let room' := { room with players := mapDelete room.players sid }
      ((code, room') :: next.1,
       Emit.playersUpdate code (room'.players.map Prod.snd) :: next.2)
    else
      ((code, room) :: next.1, next.2)

/-- disconnect handler. -/
def disconnect (rooms : Rooms) (sid : String) : HResult :=
  ⟨(disconnectRooms rooms sid).1, (disconnectRooms rooms sid).2, false⟩

/-- endQuestion, fired by the timer scheduled in host:next_question.
It re-reads the room but does NOT check which question it was scheduled
for: it reads the room's current question unguarded, so it throws when
currentQ is out of range and otherwise broadcasts whatever question is
current at fire time. -/
def endQuestion (rooms : Rooms) (roomCode : String) : HResult :=
  match mapGet rooms roomCode with
  | none => ⟨rooms, [], false⟩
  | some room =>
    match jsIndex room.quiz.questions room.currentQ with
    | none => ⟨rooms, [], true⟩
    | some q =>
      ⟨rooms,
       [Emit.questionEnd roomCode q.correctIndices (makeLeaderboard room)],
       false⟩

/-- Inbound events of the coordinator, including timer firings.
Randomness (the drawn room code) and jwt.verify results are inputs. -/
inductive Event where
  | createRoom (sid : String) (quiz : Quiz) (decoded : Option TokenPayload)
      (roomCode : String)
  | join (sid : String) (roomCode : String) (name : String)
  | nextQuestion (sid : String) (roomCode : String) (now : Int)
  | answer (sid : String) (roomCode : String) (c : JsChoice) (now : Int)
  | socketDisconnect (sid : String)
  | timerFire (roomCode : String)
  deriving DecidableEq

/-- Dispatch one inbound event to its handler. -/
def handleEvent (rooms : Rooms) (e : Event) : HResult :=
  match e with
  | .createRoom sid quiz d code => hostCreateRoom rooms sid quiz d code
  | .join sid code name => playerJoin rooms sid code name
  | .nextQuestion sid code now => hostNextQuestion rooms sid code now
  | .answer sid code c now => playerAnswer rooms sid code c now
  | .socketDisconnect sid => disconnect rooms sid
  | .timerFire code => endQuestion rooms code

/-- Run a sequence of events, collecting all emissions in order. -/
def runEvents (rooms : Rooms) : List Event → Rooms × List Emit
  | [] => (rooms, [])
  | e :: rest =>
    let r := handleEvent rooms e
    let next := runEvents r.rooms rest
    (next.1, r.emits ++ next.2)

/-- Is this emission a question:start broadcast to the given room code? -/
def isQuestionStartTo (code : String) : Emit → Bool
  | .questionStart dest _ _ _ _ _ => dest == code
  | _ => false

/-- Concrete fixture: a question with the single correct choice 1. -/
def qOne : Question :=
  { text := "q", choices := ["a", "b", "c"], correctIndices := [1],
    timeLimitSec := some 20 }

/-- Concrete fixture: a multi-select question with correct set {0, 2}. -/
def qTwo : Question :=
  { text := "q2", choices := ["a", "b", "c"], correctIndices := [0, 2],
    timeLimitSec := none }

/-- Concrete fixture players. -/
def alice0 : Player := { name := "alice", score := 0, answered := false }

/-- Concrete fixture: alice after scoring 700 and answering. -/
def alice700 : Player := { name := "alice", score := 700, answered := true }

/-- Concrete fixture: a live question-0 room on qOne with 5000ms left at
time 0 and one player who has not answered yet. -/
def roomSingleCorrect : Room :=
  { hostId := "h", hostUserId := "u", quiz := ⟨[qOne]⟩,
    players := [("p", alice0)], currentQ := 0, endsAt := some 5000 }

/-- Concrete fixture: the same live room but on the multi-select qTwo. -/
def roomTwoCorrect : Room :=
  { roomSingleCorrect with quiz := ⟨[qTwo]⟩ }

/-- Concrete fixture: a one-question room advanced past its last
question (game over), with a player who never answered it. -/
def roomPastEnd : Room :=
  { roomSingleCorrect with currentQ := 1, endsAt := some 20200 }

/-- Concrete fixture: a room where no question has started yet. -/
def roomBeforeStart : Room :=
  { roomSingleCorrect with currentQ := -1, endsAt := none }

/-- Concrete fixture: a two-question room where the host advanced to
question 1 while the question-0 timer was still pending. -/
def roomAdvanced : Room :=
  { roomSingleCorrect with
    quiz := ⟨[qOne, qTwo]⟩
    currentQ := 1
    endsAt := some 40200 }

/-- Concrete fixture: the live room with alice having already answered
and scored 700. -/
def roomAnswered : Room :=
  { roomSingleCorrect with players := [("p", alice700)] }

/-- C1 counterexample: the submission [1, 1] deduplicates to exactly the
correct set {1} of qOne, so the claim demands 1000 + 5000 / 50 = 1100
points, but the handler counts duplicates and awards (1000 / 1) * 2 =
2000 through the partial-credit branch. -/
theorem answer_fullyCorrect_dedup_counterexample :
    (toAnswers (JsChoice.multi [1, 1])).dedup = [1] ∧
    (mapGet (playerAnswer [("R", roomSingleCorrect)] "p" "R"
        (JsChoice.multi [1, 1]) 0).rooms "R").map
      (fun r => (mapGet r.players "p").map Player.score) =
      some (some 2000) ∧
    (2000 : ℚ) ≠ 1000 + 100 := by
  refine ⟨by decide, ?_, by norm_num⟩
  norm_num [playerAnswer, mapGet, mapSet, mapReplace, toAnswers, sortInts,
    insertAsc, jsIndex, roomSingleCorrect, alice0, qOne, List.filter,
    List.any]

/-- C3 counterexample: the submission [0, 0] deduplicates to {0}, a
proper non-empty subset of qTwo's correct set {0, 2}, so the claim
demands (1000 / 2) * 1 = 500 with no time bonus, but the handler counts
the duplicate as two correct choices, takes the fully-correct branch
and awards 1000 + 5000 / 50 = 1100. -/
theorem answer_partialCredit_dedup_counterexample :
    (toAnswers (JsChoice.multi [0, 0])).dedup = [0] ∧
    (mapGet (playerAnswer [("R", roomTwoCorrect)] "p" "R"
        (JsChoice.multi [0, 0]) 0).rooms "R").map
      (fun r => (mapGet r.players "p").map Player.score) =
      some (some 1100) ∧
    (1100 : ℚ) ≠ (1000 / 2) * 1 := by
  refine ⟨by decide, ?_, by norm_num⟩
  norm_num [playerAnswer, mapGet, mapSet, mapReplace, toAnswers, sortInts,
    insertAsc, jsIndex, roomTwoCorrect, roomSingleCorrect, alice0, qTwo,
    List.filter, List.any, show Int.toNat 5000 = 5000 from rfl]

/-- C2: the deferred end-question action does not re-check that the
question it was scheduled for is still current.  Fired on a room whose
index moved past the last question it throws (reading correctIndices of
undefined) instead of doing nothing, and fired after the host advanced
early it broadcasts the new current question's correct set {0, 2}
(here: scheduled during question 0, whose correct set is {1}) instead
of doing nothing. -/
theorem endQuestion_stale_fire_bug :
    (endQuestion [("R", roomPastEnd)] "R").faulted = true ∧
    (endQuestion [("R", roomPastEnd)] "R").emits = [] ∧
    ∃ lb, (endQuestion [("S", roomAdvanced)] "S").emits =
      [Emit.questionEnd "S" [0, 2] lb] :=
  ⟨by decide, by decide, ⟨makeLeaderboard roomAdvanced, rfl⟩⟩

/-- C4: a player:answer for a room whose currentQ is -1 (before the
first question) or past the last question is not a harmless no-op: when
the submitting player exists and has not answered, the handler reads
the undefined current question's correctIndices and throws.  The score
is indeed left unchanged (the flag flip and the throw happen before any
score update). -/
theorem answer_gameOver_fault_bug :
    (playerAnswer [("R", roomBeforeStart)] "p" "R"
      (JsChoice.single 1) 0).faulted = true ∧
    (playerAnswer [("R", roomPastEnd)] "p" "R"
      (JsChoice.single 1) 0).faulted = true ∧
    (mapGet (playerAnswer [("R", roomBeforeStart)] "p" "R"
        (JsChoice.single 1) 0).rooms "R").map
      (fun r => (mapGet r.players "p").map Player.score) =
      some (some 0) :=
  ⟨by decide, by decide, by decide⟩

/-- C5: a second player:answer from a player whose answered flag is
already set is a complete no-op: the registry is returned unchanged, no
message is emitted, and no fault occurs. -/
theorem answer_alreadyAnswered_noop (rooms : Rooms) (sid roomCode : String)
    (c : JsChoice) (now : Int) (room : Room) (player : Player)
    (hroom : mapGet rooms roomCode = some room)
    (hplayer : mapGet room.players sid = some player)
    (hans : player.answered = true) :
    playerAnswer rooms sid roomCode c now = ⟨rooms, [], false⟩ := by
  simp only [playerAnswer, hroom, hplayer, hans, if_true]

/-- C5 witness. -/
theorem answer_alreadyAnswered_noop_witness :
    playerAnswer [("R", roomAnswered)] "p" "R" (JsChoice.single 1) 42 =
      ⟨[("R", roomAnswered)], [], false⟩ :=
  answer_alreadyAnswered_noop _ _ _ _ _ roomAnswered alice700
    (by decide) (by decide) rfl

/-- C10: a player:join for a connection id that is already a player of
the room overwrites the record with a fresh one (given name, score 0,
answered false), erasing the accumulated score and answered flag, and
leaves every other player record unchanged. -/
theorem join_rejoin_resets (rooms : Rooms) (code sid name : String)
    (room : Room) (p : Player)
    (hroom : mapGet rooms code = some room)
    (hp : mapGet room.players sid = some p) :
    ∃ room' : Room,
      mapGet (playerJoin rooms sid code name).rooms code = some room' ∧
      mapGet room'.players sid =
        some { name := name, score := 0, answered := false } ∧
      ∀ sid2, sid2 ≠ sid →
        mapGet room'.players sid2 = mapGet room.players sid2 := by
  refine ⟨{ room with
    players :=
      mapSet room.players sid
        { name := name, score := 0, answered := false } }, ?_, ?_, ?_⟩
  · simp only [playerJoin, hroom]
    exact mapGet_mapSet_self _ _ _
  · exact mapGet_mapSet_self _ _ _
  · intro sid2 h2
    exact mapGet_mapSet_ne _ _ _ _ h2

/-- C10 witness: a player with score 700 and answered true rejoins and
is reset to score 0, answered false. -/
theorem join_rejoin_resets_witness :
    ∃ room' : Room,
      mapGet (playerJoin [("R", roomAnswered)]
        "p" "R" "bob").rooms "R" = some room' ∧
      mapGet room'.players "p" =
        some { name := "bob", score := 0, answered := false } ∧
      ∀ sid2, sid2 ≠ "p" →
        mapGet room'.players sid2 = mapGet roomAnswered.players sid2 :=
  join_rejoin_resets _ _ _ _ _ alice700 (by decide) (by decide)

/-- C1 (amended): for a player:answer whose computed answers list is
duplicate-free and whose member set equals the question's non-empty
duplicate-free correct-choice set, the handler adds exactly
1000 + floor(remainingMs / 50) to the player's score, where remainingMs
is the time to the deadline clamped to at least 0, and does not fault. -/
theorem answer_fullyCorrect_score (rooms : Rooms) (sid roomCode : String)
    (c : JsChoice) (now e : Int) (room : Room) (q : Question)
    (player : Player)
    (hroom : mapGet rooms roomCode = some room)
    (hq : jsIndex room.quiz.questions room.currentQ = some q)
    (hplayer : mapGet room.players sid = some player)
    (hans : player.answered = false)
    (hends : room.endsAt = some e)
    (hcnd : q.correctIndices.Nodup)
    (hcne : q.correctIndices ≠ [])
    (hsnd : (toAnswers c).Nodup)
    (hset : ∀ i : Int, i ∈ toAnswers c ↔ i ∈ q.correctIndices) :
    ∃ room' player',
      mapGet (playerAnswer rooms sid roomCode c now).rooms roomCode =
        some room' ∧
      mapGet room'.players sid = some player' ∧
      player'.score = player.score +
        (1000 + (((max 0 (e - now)).toNat / 50 : Nat) : ℚ)) ∧
      (playerAnswer rooms sid roomCode c now).faulted = false := by
  have hcontains : ∀ idx ∈ toAnswers c,
      (q.correctIndices.contains idx) = true := by
    intro idx hidx
    simpa using (hset idx).mp hidx
  have hfc : (toAnswers c).filter
      (fun idx => q.correctIndices.contains idx) = toAnswers c :=
    List.filter_eq_self.mpr hcontains
  have hfi : (toAnswers c).filter
      (fun idx => !(q.correctIndices.contains idx)) = [] := by
    refine List.filter_eq_nil_iff.mpr ?_
    intro a ha
    rw [hcontains a ha]
    simp
  have htf : (toAnswers c).toFinset = q.correctIndices.toFinset := by
    refine Finset.ext ?_
    intro i
    simp only [List.mem_toFinset]
    exact hset i
  have hlen : (toAnswers c).length = q.correctIndices.length := by
    rw [← List.toFinset_card_of_nodup hsnd,
      ← List.toFinset_card_of_nodup hcnd, htf]
  have hpos : 0 < q.correctIndices.length := List.length_pos.mpr hcne
  have hrun : playerAnswer rooms sid roomCode c now =
      ⟨mapSet rooms roomCode { room with players := mapSet room.players sid { player with answered := true, score := player.score + (1000 + (((max 0 (e - now)).toNat / 50 : Nat) : ℚ)) } }, [Emit.answerResult sid (decide ((0 : ℚ) < 1000 + (((max 0 (e - now)).toNat / 50 : Nat) : ℚ))), Emit.hostLeaderboard room.hostId (makeLeaderboard { room with players := mapSet room.players sid { player with answered := true, score := player.score + (1000 + (((max 0 (e - now)).toNat / 50 : Nat) : ℚ)) } })], false⟩ := by
    simp only [playerAnswer, hroom, hplayer, hans, hq, hends, hfc, hfi,
      hlen, hpos, Bool.false_eq_true, if_false, if_pos, Option.getD_some,
      List.length_nil, and_true, if_true]
  rw [hrun]
  exact ⟨_, _, mapGet_mapSet_self _ _ _, mapGet_mapSet_self _ _ _,
    rfl, rfl⟩

/-- C1 witness: the spec scenario, correct set {1}, submission [1],
5000ms remaining, awards exactly 1100 points. -/
theorem answer_fullyCorrect_score_witness :
    ∃ room' player',
      mapGet (playerAnswer [("R", roomSingleCorrect)] "p" "R"
        (JsChoice.multi [1]) 0).rooms "R" = some room' ∧
      mapGet room'.players "p" = some player' ∧
      player'.score = 1100 ∧
      (playerAnswer [("R", roomSingleCorrect)] "p" "R"
        (JsChoice.multi [1]) 0).faulted = false := by
  obtain ⟨r', p', h1, h2, h3, h4⟩ :=
    answer_fullyCorrect_score [("R", roomSingleCorrect)] "p" "R"
      (JsChoice.multi [1]) 0 5000 roomSingleCorrect qOne alice0
      (by decide) (by decide) (by decide) rfl rfl (by decide) (by decide)
      (by decide) (fun i => Iff.rfl)
  refine ⟨r', p', h1, h2, ?_, h4⟩
  rw [h3]
  norm_num [alice0, show Int.toNat 5000 = 5000 from rfl]

/-- C3 (amended): for a player:answer whose duplicate-free computed
answers list hits at least one correct choice but is not fully correct
(missing a correct choice or containing a wrong one), the handler adds
exactly (1000 / |correctSet|) * |correctSubset| to the player's score,
with no time bonus and independent of how many wrong extra choices were
submitted, and does not fault. -/
theorem answer_partialCredit_score (rooms : Rooms) (sid roomCode : String)
    (c : JsChoice) (now : Int) (room : Room) (q : Question)
    (player : Player)
    (hroom : mapGet rooms roomCode = some room)
    (hq : jsIndex room.quiz.questions room.currentQ = some q)
    (hplayer : mapGet room.players sid = some player)
    (hans : player.answered = false)
    (hcnd : q.correctIndices.Nodup)
    (hsnd : (toAnswers c).Nodup)
    (hsome : 0 < ((toAnswers c).filter
      (fun idx => q.correctIndices.contains idx)).length)
    (hnotfull :
      ((toAnswers c).filter
        (fun idx => q.correctIndices.contains idx)).length <
          q.correctIndices.length ∨
      0 < ((toAnswers c).filter
        (fun idx => !(q.correctIndices.contains idx))).length) :
    ∃ room' player',
      mapGet (playerAnswer rooms sid roomCode c now).rooms roomCode =
        some room' ∧
      mapGet room'.players sid = some player' ∧
      player'.score = player.score +
        ((1000 : ℚ) / (q.correctIndices.length : ℚ)) *
          (((toAnswers c).filter
            (fun idx => q.correctIndices.contains idx)).length : ℚ) ∧
      (playerAnswer rooms sid roomCode c now).faulted = false := by
  have hpos : 0 < q.correctIndices.length := by
    obtain ⟨a, ha⟩ := List.exists_mem_of_length_pos hsome
    have hmem : (q.correctIndices.contains a) = true := List.of_mem_filter ha
    have hmem2 : a ∈ q.correctIndices := by simpa using hmem
    exact List.length_pos.mpr (List.ne_nil_of_mem hmem2)
  have hnf : ¬ (((toAnswers c).filter
      (fun idx => q.correctIndices.contains idx)).length =
        q.correctIndices.length ∧
      ((toAnswers c).filter
        (fun idx => !(q.correctIndices.contains idx))).length = 0) := by
    rcases hnotfull with h | h
    · rintro ⟨h1, -⟩
      omega
    · rintro ⟨-, h2⟩
      omega
  have hrun : playerAnswer rooms sid roomCode c now =
      ⟨mapSet rooms roomCode { room with players := mapSet room.players sid { player with answered := true, score := player.score + ((1000 : ℚ) / (q.correctIndices.length : ℚ)) * (((toAnswers c).filter (fun idx => q.correctIndices.contains idx)).length : ℚ) } }, [Emit.answerResult sid (decide ((0 : ℚ) < ((1000 : ℚ) / (q.correctIndices.length : ℚ)) * (((toAnswers c).filter (fun idx => q.correctIndices.contains idx)).length : ℚ))), Emit.hostLeaderboard room.hostId (makeLeaderboard { room with players := mapSet room.players sid { player with answered := true, score := player.score + ((1000 : ℚ) / (q.correctIndices.length : ℚ)) * (((toAnswers c).filter (fun idx => q.correctIndices.contains idx)).length : ℚ) } })], false⟩ := by
    simp only [playerAnswer, hroom, hplayer, hans, hq, hpos,
      Bool.false_eq_true, if_false, if_pos, if_neg hnf, hsome, if_true]
  rw [hrun]
  exact ⟨_, _, mapGet_mapSet_self _ _ _, mapGet_mapSet_self _ _ _,
    rfl, rfl⟩

/-- C3 witness: the spec scenario, correct set {0, 2} and submission
{0} awards exactly 500 points. -/
theorem answer_partialCredit_score_witness :
    ∃ room' player',
      mapGet (playerAnswer [("R", roomTwoCorrect)] "p" "R"
        (JsChoice.single 0) 0).rooms "R" = some room' ∧
      mapGet room'.players "p" = some player' ∧
      player'.score = 500 ∧
      (playerAnswer [("R", roomTwoCorrect)] "p" "R"
        (JsChoice.single 0) 0).faulted = false := by
  obtain ⟨r', p', h1, h2, h3, h4⟩ :=
    answer_partialCredit_score [("R", roomTwoCorrect)] "p" "R"
      (JsChoice.single 0) 0 roomTwoCorrect qTwo alice0
      (by decide) (by decide) (by decide) rfl (by decide) (by decide)
      (by decide) (Or.inl (by decide))
  refine ⟨r', p', h1, h2, ?_, h4⟩
  rw [h3]
  norm_num [alice0, qTwo, toAnswers]

theorem mapGet_eq_none_of_key_notMem {α : Type} (m : List (String × α))
    (code : String) (h : code ∉ m.map Prod.fst) : mapGet m code = none := by
  induction m with
  | nil => rfl
  | cons kv rest ih =>
    simp only [List.map_cons, List.mem_cons, not_or] at h
    rw [mapGet_cons_neg (by simp only [beq_iff_eq]; exact Ne.symm h.1)]
    exact ih h.2

theorem disconnectRooms_cons {c0 : String} {room : Room} {rest : Rooms}
    {sid : String} :
    disconnectRooms ((c0, room) :: rest) sid =
      if room.hostId == sid then
        ((disconnectRooms rest sid).1,
         Emit.gameClosed c0 :: (disconnectRooms rest sid).2)
      else if (mapGet room.players sid).isSome then
        ((c0, { room with players := mapDelete room.players sid }) ::
           (disconnectRooms rest sid).1,
         Emit.playersUpdate c0
             ((mapDelete room.players sid).map Prod.snd) ::
           (disconnectRooms rest sid).2)
      else ((c0, room) :: (disconnectRooms rest sid).1,
        (disconnectRooms rest sid).2) := rfl

theorem disconnectRooms_mapGet_none (entries : Rooms) (sid code : String)
    (h : mapGet entries code = none) :
    mapGet (disconnectRooms entries sid).1 code = none := by
  induction entries with
  | nil => rfl
  | cons kv rest ih =>
    obtain ⟨c0, room0⟩ := kv
    have hc : ¬ (c0 == code) = true := by
      intro hcc
      rw [mapGet_cons_pos hcc] at h
      cases h
    rw [mapGet_cons_neg hc] at h
    rw [disconnectRooms_cons]
    by_cases hh : (room0.hostId == sid) = true
    · rw [if_pos hh]
      exact ih h
    · rw [if_neg hh]
      by_cases hp : (mapGet room0.players sid).isSome = true
      · rw [if_pos hp]
        show mapGet ((c0, _) :: (disconnectRooms rest sid).1) code = none
        rw [mapGet_cons_neg hc]
        exact ih h
      · rw [if_neg hp]
        show mapGet ((c0, room0) :: (disconnectRooms rest sid).1) code = none
        rw [mapGet_cons_neg hc]
        exact ih h

/-- C7: a disconnect from a room's host connection removes that room
from the registry (so a later lookup of its code finds nothing) and
broadcasts game:closed to its group; a disconnect from a non-host
connection that is one of the room's players keeps the room, removes
exactly that player, and broadcasts the updated player list. -/
theorem disconnect_host_player_cases (rooms : Rooms) (sid code : String)
    (room : Room)
    (hnd : (rooms.map Prod.fst).Nodup)
    (hroom : mapGet rooms code = some room) :
    (room.hostId = sid →
      mapGet (disconnect rooms sid).rooms code = none ∧
      Emit.gameClosed code ∈ (disconnect rooms sid).emits) ∧
    (room.hostId ≠ sid → mapGet room.players sid ≠ none →
      mapGet (disconnect rooms sid).rooms code =
        some { room with players := mapDelete room.players sid } ∧
      Emit.playersUpdate code
          ((mapDelete room.players sid).map Prod.snd) ∈
        (disconnect rooms sid).emits) := by
  simp only [disconnect]
  induction rooms with
  | nil => cases hroom
  | cons kv rest ih =>
    obtain ⟨c0, r0⟩ := kv
    simp only [List.map_cons, List.nodup_cons] at hnd
    by_cases hc : (c0 == code) = true
    · have hc0 : c0 = code := by simpa using hc
      rw [mapGet_cons_pos hc] at hroom
      injection hroom with hr0
      subst hr0
      have hrest : mapGet rest code = none := by
        refine mapGet_eq_none_of_key_notMem rest code ?_
        rw [← hc0]
        exact hnd.1
      constructor
      · intro hhost
        have hh : (r0.hostId == sid) = true := by simpa using hhost
        rw [disconnectRooms_cons, if_pos hh]
        exact ⟨disconnectRooms_mapGet_none rest sid code hrest,
          by rw [hc0]; exact List.mem_cons_self _ _⟩
      · intro hhost hp
        have hh : ¬ (r0.hostId == sid) = true := by simpa using hhost
        have hp2 : (mapGet r0.players sid).isSome = true :=
          Option.isSome_iff_ne_none.mpr hp
        rw [disconnectRooms_cons, if_neg hh, if_pos hp2]
        constructor
        · show mapGet ((c0, _) :: (disconnectRooms rest sid).1) code = _
          rw [mapGet_cons_pos hc]
        · rw [hc0]
          exact List.mem_cons_self _ _
    · rw [mapGet_cons_neg hc] at hroom
      have ihr := ih hnd.2 hroom
      rw [disconnectRooms_cons]
      by_cases hh : (r0.hostId == sid) = true
      · rw [if_pos hh]
        exact ⟨fun hhost => ⟨(ihr.1 hhost).1,
            List.mem_cons_of_mem _ (ihr.1 hhost).2⟩,
          fun hhost hp => ⟨(ihr.2 hhost hp).1,
            List.mem_cons_of_mem _ (ihr.2 hhost hp).2⟩⟩
      · rw [if_neg hh]
        by_cases hp0 : (mapGet r0.players sid).isSome = true
        · rw [if_pos hp0]
          refine ⟨fun hhost => ⟨?_, List.mem_cons_of_mem _ (ihr.1 hhost).2⟩,
            fun hhost hp => ⟨?_, List.mem_cons_of_mem _ (ihr.2 hhost hp).2⟩⟩
          · show mapGet ((c0, _) :: (disconnectRooms rest sid).1) code = _
            rw [mapGet_cons_neg hc]
            exact (ihr.1 hhost).1
          · show mapGet ((c0, _) :: (disconnectRooms rest sid).1) code = _
            rw [mapGet_cons_neg hc]
            exact (ihr.2 hhost hp).1
        · rw [if_neg hp0]
          refine ⟨fun hhost => ⟨?_, (ihr.1 hhost).2⟩,
            fun hhost hp => ⟨?_, (ihr.2 hhost hp).2⟩⟩
          · show mapGet ((c0, r0) :: (disconnectRooms rest sid).1) code = _
            rw [mapGet_cons_neg hc]
            exact (ihr.1 hhost).1
          · show mapGet ((c0, r0) :: (disconnectRooms rest sid).1) code = _
            rw [mapGet_cons_neg hc]
            exact (ihr.2 hhost hp).1

/-- C7 witness: the host disconnecting destroys the room and emits
game:closed; a tracked player disconnecting from another room removes
only that player and emits the updated player list. -/
theorem disconnect_host_player_cases_witness :
    (("h" : String) = "h" →
      mapGet (disconnect [("R", roomSingleCorrect)] "h").rooms "R" = none ∧
      Emit.gameClosed "R" ∈ (disconnect [("R", roomSingleCorrect)] "h").emits) ∧
    (("h" : String) ≠ "h" → mapGet roomSingleCorrect.players "h" ≠ none →
      mapGet (disconnect [("R", roomSingleCorrect)] "h").rooms "R" =
        some { roomSingleCorrect with
          players := mapDelete roomSingleCorrect.players "h" } ∧
      Emit.playersUpdate "R"
          ((mapDelete roomSingleCorrect.players "h").map Prod.snd) ∈
        (disconnect [("R", roomSingleCorrect)] "h").emits) :=
  disconnect_host_player_cases [("R", roomSingleCorrect)] "h" "R"
    roomSingleCorrect (by decide) (by decide)

theorem mapReplace_keys {α : Type} (m : List (String × α)) (k : String)
    (v : α) : (mapReplace m k v).map Prod.fst = m.map Prod.fst := by
  induction m with
  | nil => rfl
  | cons kv rest ih =>
    rw [mapReplace_cons]
    by_cases hk : (kv.1 == k) = true
    · have h1 : kv.1 = k := by simpa using hk
      simp [if_pos hk, ih, h1]
    · simp only [if_neg hk, List.map_cons, ih]

theorem mapSet_keys_nodup {α : Type} (m : List (String × α)) (k : String)
    (v : α) (h : (m.map Prod.fst).Nodup) :
    ((mapSet m k v).map Prod.fst).Nodup := by
  unfold mapSet
  by_cases hany : m.any (fun kv => kv.1 == k)
  · rw [if_pos hany, mapReplace_keys]
    exact h
  · rw [if_neg hany, List.map_append]
    refine List.Nodup.append h (List.nodup_singleton k) ?_
    intro a ha hb
    simp only [List.map_cons, List.map_nil, List.mem_singleton] at hb
    subst hb
    apply hany
    simp only [List.mem_map] at ha
    obtain ⟨kv, hkv, hfst⟩ := ha
    refine List.any_eq_true.mpr ⟨kv, hkv, ?_⟩
    simp [hfst]

theorem disconnectRooms_keys_sublist (entries : Rooms) (sid : String) :
    List.Sublist ((disconnectRooms entries sid).1.map Prod.fst)
      (entries.map Prod.fst) := by
  induction entries with
  | nil => exact List.Sublist.refl _
  | cons kv rest ih =>
    obtain ⟨c0, r0⟩ := kv
    rw [disconnectRooms_cons]
    by_cases hh : (r0.hostId == sid) = true
    · rw [if_pos hh]
      exact List.Sublist.cons _ ih
    · rw [if_neg hh]
      by_cases hp : (mapGet r0.players sid).isSome = true
      · rw [if_pos hp]
        exact List.Sublist.cons₂ _ ih
      · rw [if_neg hp]
        exact List.Sublist.cons₂ _ ih

theorem endQuestion_rooms (rooms : Rooms) (rc : String) :
    (endQuestion rooms rc).rooms = rooms := by
  unfold endQuestion
  cases hm : mapGet rooms rc with
  | none => rfl
  | some room =>
    cases hj : jsIndex room.quiz.questions room.currentQ with
    | none => simp [hj]
    | some q => simp [hj]

theorem handleEvent_keys_nodup (rooms : Rooms) (e : Event)
    (hnd : (rooms.map Prod.fst).Nodup) :
    (((handleEvent rooms e).rooms).map Prod.fst).Nodup := by
  cases e with
  | createRoom sid quiz d dcode =>
    cases d with
    | none => exact hnd
    | some tok =>
      by_cases hrole : tok.role ≠ "host"
      · simp only [handleEvent, hostCreateRoom, if_pos hrole]
        exact hnd
      · simp only [handleEvent, hostCreateRoom, if_neg hrole]
        exact mapSet_keys_nodup _ _ _ hnd
  | join sid rc name =>
    cases hm : mapGet rooms rc with
    | none =>
      simp only [handleEvent, playerJoin, hm]
      exact hnd
    | some room =>
      simp only [handleEvent, playerJoin, hm]
      exact mapSet_keys_nodup _ _ _ hnd
  | nextQuestion sid rc now =>
    cases hm : mapGet rooms rc with
    | none =>
      simp only [handleEvent, hostNextQuestion, hm]
      exact hnd
    | some room =>
      simp only [handleEvent, hostNextQuestion, hm]
      by_cases hhost : sid ≠ room.hostId
      · rw [if_pos hhost]
        exact hnd
      · rw [if_neg hhost]
        by_cases hlen : ((room.quiz.questions.length : Int) ≤ room.currentQ + 1)
        · rw [if_pos hlen]
          exact mapSet_keys_nodup _ _ _ hnd
        · rw [if_neg hlen]
          cases hj : jsIndex room.quiz.questions (room.currentQ + 1) with
          | none => exact mapSet_keys_nodup _ _ _ hnd
          | some q => exact mapSet_keys_nodup _ _ _ hnd
  | answer sid rc c now =>
    cases hm : mapGet rooms rc with
    | none =>
      simp only [handleEvent, playerAnswer, hm]
      exact hnd
    | some room =>
      cases hp : mapGet room.players sid with
      | none =>
        simp only [handleEvent, playerAnswer, hm, hp]
        exact hnd
      | some player =>
        by_cases hans : player.answered = true
        · simp only [handleEvent, playerAnswer, hm, hp, hans, if_true]
          exact hnd
        · simp only [handleEvent, playerAnswer, hm, hp, if_neg hans]
          cases hj : jsIndex room.quiz.questions room.currentQ with
          | none =>
            simp only [hj]
            exact mapSet_keys_nodup _ _ _ hnd
          | some q =>
            simp only [hj]
            exact mapSet_keys_nodup _ _ _ hnd
  | socketDisconnect sid =>
    exact List.Nodup.sublist (disconnectRooms_keys_sublist rooms sid) hnd
  | timerFire rc =>
    show (((endQuestion rooms rc).rooms).map Prod.fst).Nodup
    rw [endQuestion_rooms]
    exact hnd

theorem hostCreateRoom_mapGet_ne (rooms : Rooms) (sid : String)
    (quiz : Quiz) (d : Option TokenPayload) (dcode code : String)
    (hne : code ≠ dcode) :
    mapGet (hostCreateRoom rooms sid quiz d dcode).rooms code =
      mapGet rooms code := by
  cases d with
  | none => rfl
  | some tok =>
    by_cases hrole : tok.role ≠ "host"
    · simp only [hostCreateRoom, if_pos hrole]
    · simp only [hostCreateRoom, if_neg hrole]
      exact mapGet_mapSet_ne _ _ _ _ hne

theorem playerJoin_mapGet (rooms : Rooms) (sid rc name code : String)
    (r' : Room)
    (h : mapGet (playerJoin rooms sid rc name).rooms code = some r') :
    ∃ r, mapGet rooms code = some r ∧ r'.quiz = r.quiz ∧
      r'.currentQ = r.currentQ := by
  cases hm : mapGet rooms rc with
  | none =>
    simp only [playerJoin, hm] at h
    exact ⟨r', h, rfl, rfl⟩
  | some room =>
    simp only [playerJoin, hm] at h
    by_cases hc : code = rc
    · subst hc
      rw [mapGet_mapSet_self] at h
      injection h with h'
      exact ⟨room, hm, by rw [← h'], by rw [← h']⟩
    · rw [mapGet_mapSet_ne _ _ _ _ hc] at h
      exact ⟨r', h, rfl, rfl⟩

theorem hostNextQuestion_mapGet (rooms : Rooms) (sid rc : String)
    (now : Int) (code : String) (r' : Room)
    (h : mapGet (hostNextQuestion rooms sid rc now).rooms code = some r') :
    ∃ r, mapGet rooms code = some r ∧ r'.quiz = r.quiz ∧
      (r'.currentQ = r.currentQ ∨
        (r'.currentQ = r.currentQ + 1 ∧ code = rc)) := by
  cases hm : mapGet rooms rc with
  | none =>
    simp only [hostNextQuestion, hm] at h
    exact ⟨r', h, rfl, Or.inl rfl⟩
  | some room =>
    simp only [hostNextQuestion, hm] at h
    by_cases hhost : sid ≠ room.hostId
    · rw [if_pos hhost] at h
      exact ⟨r', h, rfl, Or.inl rfl⟩
    · rw [if_neg hhost] at h
      by_cases hlen : ((room.quiz.questions.length : Int) ≤ room.currentQ + 1)
      · rw [if_pos hlen] at h
        by_cases hc : code = rc
        · subst hc
          rw [mapGet_mapSet_self] at h
          injection h with h'
          exact ⟨room, hm, by rw [← h'], Or.inr ⟨by rw [← h'], rfl⟩⟩
        · rw [mapGet_mapSet_ne _ _ _ _ hc] at h
          exact ⟨r', h, rfl, Or.inl rfl⟩
      · rw [if_neg hlen] at h
        cases hj : jsIndex room.quiz.questions (room.currentQ + 1) with
        | none =>
          rw [hj] at h
          by_cases hc : code = rc
          · subst hc
            rw [mapGet_mapSet_self] at h
            injection h with h'
            exact ⟨room, hm, by rw [← h'], Or.inr ⟨by rw [← h'], rfl⟩⟩
          · rw [mapGet_mapSet_ne _ _ _ _ hc] at h
            exact ⟨r', h, rfl, Or.inl rfl⟩
        | some q =>
          rw [hj] at h
          by_cases hc : code = rc
          · subst hc
            rw [mapGet_mapSet_self] at h
            injection h with h'
            exact ⟨room, hm, by rw [← h'], Or.inr ⟨by rw [← h'], rfl⟩⟩
          · rw [mapGet_mapSet_ne _ _ _ _ hc] at h
            exact ⟨r', h, rfl, Or.inl rfl⟩

theorem playerAnswer_mapGet (rooms : Rooms) (sid rc : String)
    (c : JsChoice) (now : Int) (code : String) (r' : Room)
    (h : mapGet (playerAnswer rooms sid rc c now).rooms code = some r') :
    ∃ r, mapGet rooms code = some r ∧ r'.quiz = r.quiz ∧
      r'.currentQ = r.currentQ := by
  cases hm : mapGet rooms rc with
  | none =>
    simp only [playerAnswer, hm] at h
    exact ⟨r', h, rfl, rfl⟩
  | some room =>
    cases hp : mapGet room.players sid with
    | none =>
      simp only [playerAnswer, hm, hp] at h
      exact ⟨r', h, rfl, rfl⟩
    | some player =>
      by_cases hans : player.answered = true
      · simp only [playerAnswer, hm, hp, hans, if_true] at h
        exact ⟨r', h, rfl, rfl⟩
      · simp only [playerAnswer, hm, hp, if_neg hans] at h
        cases hj : jsIndex room.quiz.questions room.currentQ with
        | none =>
          simp only [hj] at h
          by_cases hc : code = rc
          · subst hc
            rw [mapGet_mapSet_self] at h
            injection h with h'
            exact ⟨room, hm, by rw [← h'], by rw [← h']⟩
          · rw [mapGet_mapSet_ne _ _ _ _ hc] at h
            exact ⟨r', h, rfl, rfl⟩
        | some q =>
          simp only [hj] at h
          by_cases hc : code = rc
          · subst hc
            rw [mapGet_mapSet_self] at h
            injection h with h'
            exact ⟨room, hm, by rw [← h'], by rw [← h']⟩
          · rw [mapGet_mapSet_ne _ _ _ _ hc] at h
            exact ⟨r', h, rfl, rfl⟩

theorem disconnectRooms_mapGet (entries : Rooms) (sid code : String)
    (r' : Room)
    (hnd : (entries.map Prod.fst).Nodup)
    (h : mapGet (disconnectRooms entries sid).1 code = some r') :
    ∃ r, mapGet entries code = some r ∧ r'.quiz = r.quiz ∧
      r'.currentQ = r.currentQ := by
  induction entries with
  | nil => cases h
  | cons kv rest ih =>
    obtain ⟨c0, r0⟩ := kv
    simp only [List.map_cons, List.nodup_cons] at hnd
    rw [disconnectRooms_cons] at h
    by_cases hc : (c0 == code) = true
    · have hc0 : c0 = code := by simpa using hc
      have hrest : mapGet rest code = none := by
        refine mapGet_eq_none_of_key_notMem rest code ?_
        rw [← hc0]
        exact hnd.1
      by_cases hh : (r0.hostId == sid) = true
      · rw [if_pos hh] at h
        rw [disconnectRooms_mapGet_none rest sid code hrest] at h
        cases h
      · rw [if_neg hh] at h
        by_cases hp : (mapGet r0.players sid).isSome = true
        · rw [if_pos hp] at h
          rw [show mapGet ((c0,
              { r0 with players := mapDelete r0.players sid }) ::
              (disconnectRooms rest sid).1) code = some { r0 with
                players := mapDelete r0.players sid } from
            mapGet_cons_pos hc] at h
          injection h with h'
          exact ⟨r0, mapGet_cons_pos hc, by rw [← h'], by rw [← h']⟩
        · rw [if_neg hp] at h
          rw [show mapGet ((c0, r0) ::
              (disconnectRooms rest sid).1) code = some r0 from
            mapGet_cons_pos hc] at h
          injection h with h'
          exact ⟨r0, mapGet_cons_pos hc, by rw [← h'], by rw [← h']⟩
    · by_cases hh : (r0.hostId == sid) = true
      · rw [if_pos hh] at h
        obtain ⟨r, hr, hq, hcq⟩ := ih hnd.2 h
        exact ⟨r, by rw [mapGet_cons_neg hc]; exact hr, hq, hcq⟩
      · by_cases hp : (mapGet r0.players sid).isSome = true
        · rw [if_neg hh, if_pos hp] at h
          rw [show mapGet ((c0,
              { r0 with players := mapDelete r0.players sid }) ::
              (disconnectRooms rest sid).1) code =
              mapGet (disconnectRooms rest sid).1 code from
            mapGet_cons_neg hc] at h
          obtain ⟨r, hr, hq, hcq⟩ := ih hnd.2 h
          exact ⟨r, by rw [mapGet_cons_neg hc]; exact hr, hq, hcq⟩
        · rw [if_neg hp, if_neg hh] at h
          rw [show mapGet ((c0, r0) ::
              (disconnectRooms rest sid).1) code =
              mapGet (disconnectRooms rest sid).1 code from
            mapGet_cons_neg hc] at h
          obtain ⟨r, hr, hq, hcq⟩ := ih hnd.2 h
          exact ⟨r, by rw [mapGet_cons_neg hc]; exact hr, hq, hcq⟩

/-- One step: a room found under a code after an event (that is not a
create drawing this code) was there before, with the same quiz,
and its index unchanged unless the event was a host:next_question for
this code, which bumps it by one. -/
theorem handleEvent_mapGet (rooms : Rooms) (e : Event) (code : String)
    (r' : Room)
    (hnc : ∀ s q d, e ≠ Event.createRoom s q d code)
    (hnd : (rooms.map Prod.fst).Nodup)
    (h : mapGet (handleEvent rooms e).rooms code = some r') :
    ∃ r, mapGet rooms code = some r ∧ r'.quiz = r.quiz ∧
      (r'.currentQ = r.currentQ ∨
        (r'.currentQ = r.currentQ + 1 ∧
          ∃ s now, e = Event.nextQuestion s code now)) := by
  cases e with
  | createRoom s quiz d dcode =>
    have hne : code ≠ dcode := by
      intro hh
      exact hnc s quiz d (by rw [hh])
    rw [show (handleEvent rooms (Event.createRoom s quiz d dcode)).rooms =
        (hostCreateRoom rooms s quiz d dcode).rooms from rfl,
      hostCreateRoom_mapGet_ne rooms s quiz d dcode code hne] at h
    exact ⟨r', h, rfl, Or.inl rfl⟩
  | join s rc name =>
    obtain ⟨r, hr, hq, hcq⟩ := playerJoin_mapGet rooms s rc name code r' h
    exact ⟨r, hr, hq, Or.inl hcq⟩
  | nextQuestion s rc now =>
    obtain ⟨r, hr, hq, hcq⟩ := hostNextQuestion_mapGet rooms s rc now code r' h
    rcases hcq with hcq | ⟨hcq, hcode⟩
    · exact ⟨r, hr, hq, Or.inl hcq⟩
    · subst hcode
      exact ⟨r, hr, hq, Or.inr ⟨hcq, s, now, rfl⟩⟩
  | answer s rc c now =>
    obtain ⟨r, hr, hq, hcq⟩ := playerAnswer_mapGet rooms s rc c now code r' h
    exact ⟨r, hr, hq, Or.inl hcq⟩
  | socketDisconnect s =>
    obtain ⟨r, hr, hq, hcq⟩ := disconnectRooms_mapGet rooms s code r' hnd h
    exact ⟨r, hr, hq, Or.inl hcq⟩
  | timerFire rc =>
    rw [show (handleEvent rooms (Event.timerFire rc)).rooms =
        (endQuestion rooms rc).rooms from rfl, endQuestion_rooms] at h
    exact ⟨r', h, rfl, Or.inl rfl⟩

/-- One step: a code absent from the registry stays absent, unless the
event is a create drawing this code. -/
theorem handleEvent_mapGet_none (rooms : Rooms) (e : Event) (code : String)
    (hnc : ∀ s q d, e ≠ Event.createRoom s q d code)
    (h : mapGet rooms code = none) :
    mapGet (handleEvent rooms e).rooms code = none := by
  cases e with
  | createRoom s quiz d dcode =>
    have hne : code ≠ dcode := by
      intro hh
      exact hnc s quiz d (by rw [hh])
    rw [show (handleEvent rooms (Event.createRoom s quiz d dcode)).rooms =
        (hostCreateRoom rooms s quiz d dcode).rooms from rfl,
      hostCreateRoom_mapGet_ne rooms s quiz d dcode code hne]
    exact h
  | join s rc name =>
    cases hm : mapGet rooms rc with
    | none => simpa [handleEvent, playerJoin, hm] using h
    | some room =>
      have hne : code ≠ rc := by
        intro hh
        rw [hh, hm] at h
        cases h
      simp only [handleEvent, playerJoin, hm]
      rw [mapGet_mapSet_ne _ _ _ _ hne]
      exact h
  | nextQuestion s rc now =>
    cases hm : mapGet rooms rc with
    | none => simpa [handleEvent, hostNextQuestion, hm] using h
    | some room =>
      have hne : code ≠ rc := by
        intro hh
        rw [hh, hm] at h
        cases h
      simp only [handleEvent, hostNextQuestion, hm]
      by_cases hhost : s ≠ room.hostId
      · rw [if_pos hhost]
        exact h
      · rw [if_neg hhost]
        by_cases hlen : ((room.quiz.questions.length : Int) ≤ room.currentQ + 1)
        · rw [if_pos hlen, mapGet_mapSet_ne _ _ _ _ hne]
          exact h
        · rw [if_neg hlen]
          cases hj : jsIndex room.quiz.questions (room.currentQ + 1) with
          | none =>
            rw [mapGet_mapSet_ne _ _ _ _ hne]
            exact h
          | some q =>
            rw [mapGet_mapSet_ne _ _ _ _ hne]
            exact h
  | answer s rc c now =>
    cases hm : mapGet rooms rc with
    | none => simpa [handleEvent, playerAnswer, hm] using h
    | some room =>
      have hne : code ≠ rc := by
        intro hh
        rw [hh, hm] at h
        cases h
      cases hp : mapGet room.players s with
      | none => simpa [handleEvent, playerAnswer, hm, hp] using h
      | some player =>
        by_cases hans : player.answered = true
        · simpa [handleEvent, playerAnswer, hm, hp, hans] using h
        · simp only [handleEvent, playerAnswer, hm, hp, if_neg hans]
          cases hj : jsIndex room.quiz.questions room.currentQ with
          | none =>
            simp only [hj]
            rw [mapGet_mapSet_ne _ _ _ _ hne]
            exact h
          | some q =>
            simp only [hj]
            rw [mapGet_mapSet_ne _ _ _ _ hne]
            exact h
  | socketDisconnect s =>
    exact disconnectRooms_mapGet_none rooms s code h
  | timerFire rc =>
    rw [show (handleEvent rooms (Event.timerFire rc)).rooms =
        (endQuestion rooms rc).rooms from rfl, endQuestion_rooms]
    exact h

theorem runEvents_cons_fst (rooms : Rooms) (e : Event) (rest : List Event) :
    (runEvents rooms (e :: rest)).1 =
      (runEvents (handleEvent rooms e).rooms rest).1 := rfl

theorem runEvents_cons_snd (rooms : Rooms) (e : Event) (rest : List Event) :
    (runEvents rooms (e :: rest)).2 =
      (handleEvent rooms e).emits ++
        (runEvents (handleEvent rooms e).rooms rest).2 := rfl

theorem runEvents_mapGet_none (es : List Event) : ∀ (rooms : Rooms)
    (code : String),
    (∀ s q d, Event.createRoom s q d code ∉ es) →
    mapGet rooms code = none →
    mapGet (runEvents rooms es).1 code = none := by
  induction es with
  | nil =>
    intro rooms code _ h
    exact h
  | cons e rest ih =>
    intro rooms code hnc h
    rw [runEvents_cons_fst]
    refine ih _ code (fun s q d hm => hnc s q d (List.mem_cons_of_mem _ hm)) ?_
    refine handleEvent_mapGet_none rooms e code ?_ h
    intro s q d he
    exact hnc s q d (by rw [← he]; exact List.mem_cons_self _ _)

theorem isQuestionStartTo_shape (code : String) (em : Emit)
    (h : isQuestionStartTo code em = true) :
    ∃ idx text chs ea hma,
      em = Emit.questionStart code idx text chs ea hma := by
  cases em
  case questionStart dest idx text chs ea hma =>
    have hd : dest = code := by simpa [isQuestionStartTo] using h
    subst hd
    exact ⟨idx, text, chs, ea, hma, rfl⟩
  all_goals exact absurd h (by simp [isQuestionStartTo])

theorem disconnectRooms_emits_no_questionStart (entries : Rooms)
    (sid code : String) (em : Emit)
    (h : em ∈ (disconnectRooms entries sid).2) :
    isQuestionStartTo code em = false := by
  induction entries with
  | nil => cases h
  | cons kv rest ih =>
    obtain ⟨c0, r0⟩ := kv
    rw [disconnectRooms_cons] at h
    by_cases hh : (r0.hostId == sid) = true
    · rw [if_pos hh] at h
      rcases List.mem_cons.mp h with rfl | h2
      · rfl
      · exact ih h2
    · rw [if_neg hh] at h
      by_cases hp : (mapGet r0.players sid).isSome = true
      · rw [if_pos hp] at h
        rcases List.mem_cons.mp h with rfl | h2
        · rfl
        · exact ih h2
      · rw [if_neg hp] at h
        exact ih h

/-- A question:start to this code can only come from a host:next_question
for this code, fired on a registered room whose next index is still in
range. -/
theorem questionStart_emit_origin (rooms : Rooms) (e : Event)
    (code : String) (em : Emit)
    (hmem : em ∈ (handleEvent rooms e).emits)
    (hqs : isQuestionStartTo code em = true) :
    ∃ s now room, e = Event.nextQuestion s code now ∧
      mapGet rooms code = some room ∧
      room.currentQ + 1 < (room.quiz.questions.length : Int) := by
  obtain ⟨idx, text, chs, ea, hma, rfl⟩ := isQuestionStartTo_shape code em hqs
  cases e with
  | createRoom s quiz d dcode =>
    exfalso
    cases d with
    | none => simp [handleEvent, hostCreateRoom] at hmem
    | some tok =>
      by_cases hrole : tok.role ≠ "host"
      · simp [handleEvent, hostCreateRoom, if_pos hrole] at hmem
      · simp [handleEvent, hostCreateRoom, if_neg hrole] at hmem
  | join s rc name =>
    exfalso
    cases hm : mapGet rooms rc with
    | none => simp [handleEvent, playerJoin, hm] at hmem
    | some room => simp [handleEvent, playerJoin, hm] at hmem
  | nextQuestion s rc now =>
    cases hm : mapGet rooms rc with
    | none =>
      exfalso
      simp [handleEvent, hostNextQuestion, hm] at hmem
    | some room =>
      simp only [handleEvent, hostNextQuestion, hm] at hmem
      by_cases hhost : s ≠ room.hostId
      · rw [if_pos hhost] at hmem
        cases hmem
      · rw [if_neg hhost] at hmem
        by_cases hlen : ((room.quiz.questions.length : Int) ≤ room.currentQ + 1)
        · rw [if_pos hlen] at hmem
          rcases List.mem_singleton.mp hmem with h
          cases h
        · rw [if_neg hlen] at hmem
          cases hj : jsIndex room.quiz.questions (room.currentQ + 1) with
          | none =>
            rw [hj] at hmem
            cases hmem
          | some q =>
            rw [hj] at hmem
            have he := List.mem_singleton.mp hmem
            have hrc : rc = code := by
              injection he with h1
              exact h1.symm
            refine ⟨s, now, room, by rw [hrc], by rw [← hrc]; exact hm,
              by omega⟩
  | answer s rc c now =>
    exfalso
    cases hm : mapGet rooms rc with
    | none => simp [handleEvent, playerAnswer, hm] at hmem
    | some room =>
      cases hp : mapGet room.players s with
      | none => simp [handleEvent, playerAnswer, hm, hp] at hmem
      | some player =>
        by_cases hans : player.answered = true
        · simp [handleEvent, playerAnswer, hm, hp, hans] at hmem
        · simp only [handleEvent, playerAnswer, hm, hp, if_neg hans] at hmem
          cases hj : jsIndex room.quiz.questions room.currentQ with
          | none =>
            simp only [hj] at hmem
            cases hmem
          | some q =>
            simp only [hj] at hmem
            rcases List.mem_cons.mp hmem with h | h
            · cases h
            · rcases List.mem_singleton.mp h with h
              cases h
  | socketDisconnect s =>
    exfalso
    have := disconnectRooms_emits_no_questionStart rooms s code _ hmem
    rw [isQuestionStartTo] at this
    simp at this
  | timerFire rc =>
    exfalso
    cases hm : mapGet rooms rc with
    | none => simp [handleEvent, endQuestion, hm] at hmem
    | some room =>
      simp only [handleEvent, endQuestion, hm] at hmem
      cases hj : jsIndex room.quiz.questions room.currentQ with
      | none =>
        simp only [hj] at hmem
        cases hmem
      | some q =>
        simp only [hj] at hmem
        rcases List.mem_singleton.mp hmem with h
        cases h

theorem runEvents_no_questionStart (es : List Event) : ∀ (rooms : Rooms)
    (code : String),
    (∀ s q d, Event.createRoom s q d code ∉ es) →
    ((rooms.map Prod.fst).Nodup) →
    (∀ r, mapGet rooms code = some r →
      (r.quiz.questions.length : Int) ≤ r.currentQ) →
    ∀ em ∈ (runEvents rooms es).2, isQuestionStartTo code em = false := by
  induction es with
  | nil =>
    intro rooms code _ _ _ em hm
    cases hm
  | cons e rest ih =>
    intro rooms code hnc hnd hinv em hm
    rw [runEvents_cons_snd] at hm
    rcases List.mem_append.mp hm with hm | hm
    · by_contra hq
      rw [Bool.not_eq_false] at hq
      obtain ⟨s, now, r2, he, hr2, hlt⟩ :=
        questionStart_emit_origin rooms e code em hm hq
      have := hinv r2 hr2
      omega
    · refine ih _ code
        (fun s q d hmm => hnc s q d (List.mem_cons_of_mem _ hmm))
        (handleEvent_keys_nodup rooms e hnd) ?_ em hm
      intro r' hr'
      obtain ⟨r, hr, hquiz, hstep⟩ := handleEvent_mapGet rooms e code r'
        (fun s q d he => hnc s q d
          (by rw [← he]; exact List.mem_cons_self _ _)) hnd hr'
      have hlen := hinv r hr
      rw [hquiz]
      rcases hstep with h1 | ⟨h1, -⟩ <;> omega

/-- C6 (amended): once a room's currentQuestionIndex has passed its last
question (the game-over broadcast happened), no subsequent event
sequence that does not re-create that room's code ever emits a
question:start to that code; in particular no subsequent
host:next_question produces a question-started broadcast. -/
theorem gameOver_no_questionStart (rooms : Rooms) (es : List Event)
    (code : String) (room : Room)
    (hnd : (rooms.map Prod.fst).Nodup)
    (hroom : mapGet rooms code = some room)
    (hover : (room.quiz.questions.length : Int) ≤ room.currentQ)
    (hnc : ∀ s q d, Event.createRoom s q d code ∉ es) :
    ∀ em ∈ (runEvents rooms es).2, isQuestionStartTo code em = false := by
  refine runEvents_no_questionStart es rooms code hnc hnd ?_
  intro r hr
  rw [hroom] at hr
  injection hr with hr
  rw [← hr]
  exact hover

/-- C6 witness: a room in game over receives another next_question; no
question:start is emitted. -/
theorem gameOver_no_questionStart_witness :
    ((runEvents [("R", roomPastEnd)]
      [Event.nextQuestion "h" "R" 99]).2.all
        (fun em => !(isQuestionStartTo "R" em))) = true := by
  rw [List.all_eq_true]
  intro em hm
  have hfalse := gameOver_no_questionStart [("R", roomPastEnd)]
    [Event.nextQuestion "h" "R" 99] "R" roomPastEnd
    (by decide) (by decide) (by decide)
    (by intro s q d hmm; simp at hmm) em hm
  simp [hfalse]

/-- Concrete fixture: the empty quiz and a host token. -/
def quizEmpty : Quiz := ⟨[]⟩

/-- Concrete fixture: a one-question quiz. -/
def quizOne : Quiz := ⟨[qOne]⟩

/-- Concrete fixture: a verified host token payload. -/
def tokHost : Option TokenPayload := some { id := "u1", role := "host" }

/-- C6 counterexample: after the room at code R reaches game over, a
colliding host:create_room re-uses code R (the reference never checks
for collisions) and the new host's next_question emits question:start
to R's broadcast group — a question-started broadcast for that room
after game over. -/
theorem gameOver_questionStart_counterexample :
    ((mapGet (runEvents [] [Event.createRoom "h1" quizEmpty tokHost "R",
        Event.nextQuestion "h1" "R" 0]).1 "R").map
      (fun r => decide ((r.quiz.questions.length : Int) ≤ r.currentQ)) =
      some true) ∧
    ((runEvents [] [Event.createRoom "h1" quizEmpty tokHost "R",
        Event.nextQuestion "h1" "R" 0,
        Event.createRoom "h2" quizOne tokHost "R",
        Event.nextQuestion "h2" "R" 5]).2.any
      (isQuestionStartTo "R") = true) :=
  ⟨by decide, by decide⟩

theorem currentQ_monotone_aux (es : List Event) : ∀ (rooms : Rooms)
    (code : String) (r r' : Room),
    (∀ s q d, Event.createRoom s q d code ∉ es) →
    ((rooms.map Prod.fst).Nodup) →
    mapGet rooms code = some r →
    mapGet (runEvents rooms es).1 code = some r' →
    r.currentQ ≤ r'.currentQ ∧
      ((∀ s now, Event.nextQuestion s code now ∉ es) →
        r'.currentQ = r.currentQ) := by
  induction es with
  | nil =>
    intro rooms code r r' _ _ hr h'
    rw [show (runEvents rooms []).1 = rooms from rfl, hr] at h'
    injection h' with h'
    rw [h']
    exact ⟨le_refl _, fun _ => rfl⟩
  | cons e rest ih =>
    intro rooms code r r' hnc hnd hr h'
    rw [runEvents_cons_fst] at h'
    cases h1 : mapGet (handleEvent rooms e).rooms code with
    | none =>
      exfalso
      rw [runEvents_mapGet_none rest _ code
        (fun s q d hm => hnc s q d (List.mem_cons_of_mem _ hm)) h1] at h'
      cases h'
    | some r1 =>
      obtain ⟨r0, hr0, hquiz, hstep⟩ := handleEvent_mapGet rooms e code r1
        (fun s q d he => hnc s q d
          (by rw [← he]; exact List.mem_cons_self _ _)) hnd h1
      rw [hr] at hr0
      injection hr0 with hr0
      obtain ⟨hle, hunch⟩ := ih (handleEvent rooms e).rooms code r1 r'
        (fun s q d hm => hnc s q d (List.mem_cons_of_mem _ hm))
        (handleEvent_keys_nodup rooms e hnd) h1 h'
      constructor
      · rcases hstep with h2 | ⟨h2, -⟩ <;> rw [← hr0] at h2 <;> omega
      · intro hnn
        have h2 : r1.currentQ = r.currentQ := by
          rcases hstep with h2 | ⟨h2, s, now, he⟩
          · rw [← hr0] at h2
            exact h2
          · exact absurd (by rw [he]; exact List.mem_cons_self _ _)
              (hnn s now)
        have h3 := hunch
          (fun s now hm => hnn s now (List.mem_cons_of_mem _ hm))
        omega

/-- C8 (amended): across any sequence of inbound events and timer
firings in which no host:create_room draws this room's code, the
currentQuestionIndex of the room registered under that code never
decreases, and if the sequence contains no host:next_question for that
code the index is unchanged — the next_question advance is the only
transition that changes it. -/
theorem currentQ_monotone (rooms : Rooms) (es : List Event)
    (code : String) (r r' : Room)
    (hnd : (rooms.map Prod.fst).Nodup)
    (hnc : ∀ s q d, Event.createRoom s q d code ∉ es)
    (hr : mapGet rooms code = some r)
    (h' : mapGet (runEvents rooms es).1 code = some r') :
    r.currentQ ≤ r'.currentQ ∧
      ((∀ s now, Event.nextQuestion s code now ∉ es) →
        r'.currentQ = r.currentQ) :=
  currentQ_monotone_aux es rooms code r r' hnc hnd hr h'

/-- Concrete fixture: the live room after a second player joined. -/
def roomJoined : Room :=
  { roomSingleCorrect with players := mapSet roomSingleCorrect.players "p2" { name := "bob", score := 0, answered := false } }

/-- C8 witness: a join event leaves the index unchanged. -/
theorem currentQ_monotone_witness :
    roomSingleCorrect.currentQ ≤ roomJoined.currentQ ∧
      ((∀ s now, Event.nextQuestion s "R" now ∉
          [Event.join "p2" "R" "bob"]) →
        roomJoined.currentQ = roomSingleCorrect.currentQ) :=
  currentQ_monotone [("R", roomSingleCorrect)] [Event.join "p2" "R" "bob"]
    "R" roomSingleCorrect roomJoined (by decide)
    (by intro s q d hm; simp at hm) (by decide) (by decide)

/-- C8 counterexample: a colliding host:create_room resets the index of
the room registered at code R from 0 back to -1, a decrease caused by a
handler other than host:next_question. -/
theorem currentQ_monotone_counterexample :
    ((mapGet (runEvents [] [Event.createRoom "h1" quizEmpty tokHost "R",
        Event.nextQuestion "h1" "R" 0]).1 "R").map Room.currentQ =
      some 0) ∧
    ((mapGet (runEvents [] [Event.createRoom "h1" quizEmpty tokHost "R",
        Event.nextQuestion "h1" "R" 0,
        Event.createRoom "h2" quizEmpty tokHost "R"]).1 "R").map
      Room.currentQ = some (-1)) :=
  ⟨by decide, by decide⟩

/-- C9: makeLeaderboard returns the players' (name, score) pairs sorted
by score descending, as a permutation of the input; the sort is stable,
so for every score value the entries carrying it appear in their
player-map insertion order — the output is deterministic for a given
player ordering. -/
theorem makeLeaderboard_sorted_stable (room : Room) :
    (makeLeaderboard room).Pairwise (fun a b => b.2 ≤ a.2) ∧
    (makeLeaderboard room).Perm
      ((room.players.map Prod.snd).map (fun p => (p.name, p.score))) ∧
    ∀ s : ℚ, (makeLeaderboard room).filter (fun x => decide (x.2 = s)) =
      ((room.players.map Prod.snd).map
        (fun p => (p.name, p.score))).filter (fun x => decide (x.2 = s)) := by
  have htrans : ∀ (a b c : String × ℚ),
      (fun a b : String × ℚ => decide (b.2 ≤ a.2)) a b = true →
      (fun a b : String × ℚ => decide (b.2 ≤ a.2)) b c = true →
      (fun a b : String × ℚ => decide (b.2 ≤ a.2)) a c = true := by
    intro a b c hab hbc
    simp only [decide_eq_true_eq] at *
    exact le_trans hbc hab
  have htotal : ∀ (a b : String × ℚ),
      ((fun a b : String × ℚ => decide (b.2 ≤ a.2)) a b ||
       (fun a b : String × ℚ => decide (b.2 ≤ a.2)) b a) = true := by
    intro a b
    simp only [Bool.or_eq_true, decide_eq_true_eq]
    exact le_total b.2 a.2
  unfold makeLeaderboard
  refine ⟨?_, List.mergeSort_perm _ _, ?_⟩
  · have hs := List.sorted_mergeSort htrans htotal
      ((room.players.map Prod.snd).map (fun p => (p.name, p.score)))
    exact hs.imp (fun h => by simpa using h)
  · intro s
    have hpw : (((room.players.map Prod.snd).map
        (fun p => (p.name, p.score))).filter
          (fun x => decide (x.2 = s))).Pairwise
        (fun a b : String × ℚ => decide (b.2 ≤ a.2)) := by
      refine List.pairwise_of_forall_mem_list ?_
      intro a ha b hb
      have ha2 : a.2 = s := by simpa using List.of_mem_filter ha
      have hb2 : b.2 = s := by simpa using List.of_mem_filter hb
      simp [ha2, hb2]
    have hsub := List.sublist_mergeSort htrans htotal hpw
      (List.filter_sublist _)
    have hsub2 := List.Sublist.filter (fun x => decide (x.2 = s)) hsub
    rw [List.filter_filter] at hsub2
    have hidem : (((room.players.map Prod.snd).map
        (fun p => (p.name, p.score))).filter
          (fun a => decide (a.2 = s) && decide (a.2 = s))) =
        ((room.players.map Prod.snd).map
          (fun p => (p.name, p.score))).filter
            (fun x => decide (x.2 = s)) := by
      simp
    rw [hidem] at hsub2
    have hperm := List.Perm.filter (fun x => decide (x.2 = s))
      (List.mergeSort_perm ((room.players.map Prod.snd).map
        (fun p => (p.name, p.score))) (fun a b => decide (b.2 ≤ a.2)))
    exact (List.Sublist.eq_of_length hsub2 hperm.length_eq.symm).symm

end Zappy
